import Mathlib

/-!
Shallow embedding of the fourious real-time spectral visualization
pipeline: magnitude processing, the bounded FFT history buffer, the
per-bin peak-hold tracker, the heat-map color mapping, and the three
renderers (bars, line, spectrogram), in both the Vue-component variants
and the standalone `main.ts` / simulated-signal variants.

JavaScript `number` arithmetic is modelled by `ℚ` wherever every
reachable value is finite; the one place where the code can produce
`Infinity`/`NaN` (the line renderer's point spacing `width / (n - 1)`)
is modelled by the `JSVal` type with the IEEE-754 special-value rules
for the operations it reaches.
-/

/-- Visualization options (`options` prop of the visualizer components). -/
structure VisOptions where
  logScale : Bool
  showPeaks : Bool
  deriving DecidableEq

/-- Per-renderer peak-hold state: the `peakValues` and `peakHoldFrames`
arrays of `SpectrumBars.vue` / `SpectrumLine.vue`. -/
structure PeakSt where
  peakValues : List ℚ
  peakHoldFrames : List ℕ
  deriving DecidableEq

/-- History push, from `processAudioData` (AudioAnalyzer.vue, main.ts) and
`processFFTData` (simulated path):
`fftHistory.push([...magnitudes]); if (fftHistory.length > MAX_HISTORY)
fftHistory.shift();` with the capacity (`MAX_HISTORY = 200`) as the
parameter `C`. -/
def pushFrame (C : ℕ) (hist : List (List ℚ)) (f : List ℚ) : List (List ℚ) :=
  let h := hist ++ [f]
  if C < h.length then h.drop 1 else h

/-- One per-bin update of the peak-hold tracker (`SpectrumBars.vue` /
`SpectrumLine.vue` `draw`, with `PEAK_HOLD_TIME = 30` and
`PEAK_FALL_SPEED = 0.8`): a strictly higher incoming height replaces the
peak and resets the hold counter to 30; otherwise a positive hold counter
is decremented; once it is zero the peak decays by the factor `4/5`. -/
def peakStep (h : ℚ) (s : ℚ × ℕ) : ℚ × ℕ :=
  if s.1 < h then (h, 30)
  else if 0 < s.2 then (s.1, s.2 - 1)
  else (s.1 * (4 / 5), 0)

/-- State of one bin after a spike of height `v` at tick `0` followed by
`n` ticks of silence (input height `0`), starting from the all-zero
state. -/
def silentTicks (v : ℚ) : ℕ → ℚ × ℕ
  | 0 => peakStep v (0, 0)
  | n + 1 => peakStep 0 (silentTicks v n)

/-- The 5-segment heat-map ramp of `getColor` (main.ts lines 126-161 and
the byte-identical copy in the simulated path), expressed on the already
clamped value `t`: breakpoints at 0.2 / 0.4 / 0.6 / 0.8, one ramping
channel per segment, `Math.floor` on the ramping channel. -/
def heatRampColor (t : ℚ) : ℤ × ℤ × ℤ :=
  if t < 1 / 5 then (0, ⌊(255 : ℚ) * (t / (1 / 5))⌋, 255)
  else if t < 2 / 5 then (0, 255, ⌊(255 : ℚ) * (1 - (t - 1 / 5) / (1 / 5))⌋)
  else if t < 3 / 5 then (⌊(255 : ℚ) * ((t - 2 / 5) / (1 / 5))⌋, 255, 0)
  else if t < 4 / 5 then (255, ⌊(255 : ℚ) * (1 - (t - 3 / 5) / (1 / 5))⌋, 0)
  else (255, 0, ⌊(255 : ℚ) * ((t - 4 / 5) / (1 / 5))⌋)

/-- `getColor(magnitude, max)`: clamp `magnitude / max` into `[0, 1]`
(`Math.min(1, Math.max(0, magnitude / max))`) and apply the 5-segment
ramp. -/
def getColor (magnitude mx : ℚ) : ℤ × ℤ × ℤ :=
  heatRampColor (min 1 (max 0 (magnitude / mx)))

/-- `valueToColor(value)` of `Spectrogram.vue` (lines 82-108): clamp into
`[0, 255]` and apply a three-segment ramp with breakpoints 85 and 170; in
the middle segment both the red and the blue channel change. -/
def valueToColor (value : ℚ) : ℤ × ℤ × ℤ :=
  let v := min 255 (max 0 value)
  if v < 85 then (0, ⌊v * 3⌋, 255)
  else if v < 170 then (⌊(v - 85) * 3⌋, 255, 255 - ⌊(v - 85) * 3⌋)
  else (255, 255 - ⌊(v - 170) * 3⌋, 0)

/-- Channelwise closeness up to one rounding unit. -/
def rgbClose (a b : ℤ × ℤ × ℤ) : Prop :=
  |a.1 - b.1| ≤ 1 ∧ |a.2.1 - b.2.1| ≤ 1 ∧ |a.2.2 - b.2.2| ≤ 1

instance (a b : ℤ × ℤ × ℤ) : Decidable (rgbClose a b) := by
  unfold rgbClose; infer_instance

/-- `Math.max(...frame, 0)`: the per-frame maximum used by
`Spectrogram.vue`. -/
def specFrameMax (f : List ℚ) : ℚ := f.foldl max 0

/-- `Spectrogram.vue` `draw`, lines 122-127: the normalization maximum,
seeded with 1 (`let maxValue = 1; // Avoid division by zero`) and folded
over every frame of the retained history. -/
def specMaxValue (hist : List (List ℚ)) : ℚ :=
  hist.foldl (fun m f => max m (specFrameMax f)) 1

/-- The value painted into the new rightmost column for bin `bin`
(`Spectrogram.vue` lines 162-163): `(fftData[bin] || 0) / maxValue * 255`. -/
def specColumnValue (hist : List (List ℚ)) (fftData : List ℚ) (bin : ℕ) : ℚ :=
  fftData.getD bin 0 / specMaxValue hist * 255

/-- `drawSpectrogram` of main.ts (lines 193-202): nested loop maximum over
the whole history, then floored at 1
(`maxMagnitude = Math.max(maxMagnitude, 1)`). -/
def mainSpectroMaxMagnitude (hist : List (List ℚ)) : ℚ :=
  max (hist.foldl (fun m row => row.foldl max m) 0) 1

/-- `processAudioData` magnitude computation (AudioAnalyzer.vue lines
140-160 / main.ts lines 93-113): the first `min(256, length)` byte values
(naturals in 0..255), each replaced by `log10(b + 1) * 50` when `logScale`
is on and the byte is positive.  `log10` is kept abstract: the code calls
`Math.log10`, and the theorems assume only the properties of the real
logarithm they need. -/
def processAudioData (log10 : ℚ → ℚ) (logScale : Bool) (frequencyData : List ℕ) : List ℚ :=
  (frequencyData.take 256).map fun (b : ℕ) =>
    if logScale = true ∧ 0 < b then log10 ((b : ℚ) + 1) * 50 else (b : ℚ)

/-- `processFFTData` magnitude computation (simulated path lines 138-157):
for each `i < min(256, size / 2)` take `sqrt(re² + im²)` of the
interleaved FFT output, optionally `log10(m) * 10`, then clamp at 0
(`magnitude = Math.max(0, magnitude)`).  `sqrt` and `log10` are abstract
as above. -/
def processFFTData (sqrt log10 : ℚ → ℚ) (logScale : Bool)
    (fftOutput : List ℚ) (size : ℕ) : List ℚ :=
  (List.range (min 256 (size / 2))).map fun (i : ℕ) =>
    let re := fftOutput.getD (i * 2) 0
    let im := fftOutput.getD (i * 2 + 1) 0
    let m := sqrt (re * re + im * im)
    let m' := if logScale = true ∧ 0 < m then log10 m * 10 else m
    max 0 m'

/-- `Math.max(...fftData, 1)`: the normalization maximum shared by
`SpectrumBars.vue` and `SpectrumLine.vue` (`// Avoid division by zero`). -/
def vueMaxValue (fftData : List ℚ) : ℚ := fftData.foldl max 1

/-- Normalization denominator of the standalone bars/line renderers:
frame maximum (loop seeded with 0) floored at `mxFloor`
(`maxMagnitude = Math.max(maxMagnitude, ...)`). -/
def barsMaxWith (mxFloor : ℚ) (magnitudes : List ℚ) : ℚ :=
  max (magnitudes.foldl max 0) mxFloor

/-- Bars denominator of main.ts `drawFrequencyBars` (lines 228-234):
floored at 1. -/
def mainBarsMax (magnitudes : List ℚ) : ℚ := barsMaxWith 1 magnitudes

/-- Bars denominator of the simulated path's `drawFrequencyBars`:
floored at 0.1, not 1. -/
def p4BarsMax (magnitudes : List ℚ) : ℚ := barsMaxWith (1 / 10) magnitudes

/-- IEEE-754 double values as produced by the JavaScript arithmetic the
renderers reach: an exact finite value, the two infinities, or NaN
(none of the modelled operations ever needs to round). -/
inductive JSVal where
  | fin (q : ℚ)
  | posInf
  | negInf
  | nan
  deriving DecidableEq

/-- JavaScript division for the values reachable here (IEEE-754 rules):
`x / 0` is `±Infinity` for nonzero finite `x`, and `0 / 0` is `NaN`. -/
def jsDiv : JSVal → JSVal → JSVal
  | .fin a, .fin b =>
    if b = 0 then (if 0 < a then .posInf else if a < 0 then .negInf else .nan)
    else .fin (a / b)
  | .posInf, .fin b => if 0 ≤ b then .posInf else .negInf
  | .negInf, .fin b => if 0 ≤ b then .negInf else .posInf
  | .fin _, .posInf => .fin 0
  | .fin _, .negInf => .fin 0
  | _, _ => .nan

/-- JavaScript multiplication (IEEE-754 rules): `0 * ±Infinity` is `NaN`. -/
def jsMul : JSVal → JSVal → JSVal
  | .fin a, .fin b => .fin (a * b)
  | .fin a, .posInf => if 0 < a then .posInf else if a < 0 then .negInf else .nan
  | .posInf, .fin a => if 0 < a then .posInf else if a < 0 then .negInf else .nan
  | .fin a, .negInf => if 0 < a then .negInf else if a < 0 then .posInf else .nan
  | .negInf, .fin a => if 0 < a then .negInf else if a < 0 then .posInf else .nan
  | .posInf, .posInf => .posInf
  | .negInf, .negInf => .posInf
  | .posInf, .negInf => .negInf
  | .negInf, .posInf => .negInf
  | _, _ => .nan

/-- Finiteness of a JavaScript number (`Number.isFinite`). -/
def JSVal.isFinite : JSVal → Bool
  | .fin _ => true
  | _ => false

/-- Point spacing of the `SpectrumLine.vue` path (line 93):
`width / (dataLength - 1)` in JavaScript arithmetic — for a single bin
the denominator is `0`. -/
def linePointSpacing (width : ℚ) (n : ℕ) : JSVal :=
  jsDiv (.fin width) (.fin ((n : ℚ) - 1))

/-- Elementwise peak update of one draw call over the bar/point heights:
the loop bodies of SpectrumBars.vue lines 124-135 and SpectrumLine.vue
lines 123-136 (each index is updated independently). -/
def updatePeaks (heights : List ℚ) (st : PeakSt) : PeakSt :=
  ⟨(List.range heights.length).map fun i =>
      (peakStep (heights.getD i 0) (st.peakValues.getD i 0, st.peakHoldFrames.getD i 0)).1,
   (List.range heights.length).map fun i =>
      (peakStep (heights.getD i 0) (st.peakValues.getD i 0, st.peakHoldFrames.getD i 0)).2⟩

/-- Raster primitives emitted by `SpectrumBars.vue` `draw`: `bar` is
`fillRect(x + barSpacing/2, height - h, actualBarWidth, h)` with the
hue-by-bin fill `hsl(hue, 100%, 50%)`; `peakMark` is the 2-pixel-high
white `fillRect` at the held peak. -/
inductive BarsOp where
  | clear
  | bar (x y w h hue : ℚ)
  | peakMark (x y w : ℚ)
  deriving DecidableEq

/-- `SpectrumBars.vue` `draw` (lines 83-143): returns the raster (the
primitive list; unchanged for an empty frame, which returns before
clearing) and the updated peak state.  A bin-count change re-initializes
the peak arrays to zero before anything is drawn (lines 98-101), whether
or not peaks are shown; the peak state itself is only advanced when
`showPeaks` is on. -/
def drawBars (width height : ℚ) (fftData : List ℚ) (opts : VisOptions)
    (st : PeakSt) (raster : List BarsOp) : List BarsOp × PeakSt :=
  if fftData.length = 0 then (raster, st)
  else
    let n := fftData.length
    let barWidth := width / n
    let barSpacing := max 0 (barWidth * (1 / 10))
    let actualBarWidth := barWidth - barSpacing
    let st0 := if st.peakValues.length ≠ n then
        ⟨List.replicate n 0, List.replicate n 0⟩ else st
    let maxValue := vueMaxValue fftData
    let heights := fftData.map fun v => v / maxValue * height
    let st1 := if opts.showPeaks then updatePeaks heights st0 else st0
    let ops := BarsOp.clear :: ((List.range n).map fun (i : ℕ) =>
      let bh := heights.getD i 0
      let x := (i : ℚ) * barWidth
      let b := BarsOp.bar (x + barSpacing / 2) (height - bh) actualBarWidth bh
        ((i : ℚ) / (n : ℚ) * 240)
      if opts.showPeaks then
        [b, BarsOp.peakMark (x + barSpacing / 2)
          (height - st1.peakValues.getD i 0) actualBarWidth]
      else [b]).flatten
    (ops, st1)

/-- Stroke paints of `SpectrumLine.vue`. -/
inductive LinePaint where
  | cyan
  | whitePeak
  deriving DecidableEq

/-- Raster primitives of `SpectrumLine.vue` `draw`: the stroked paths
(x coordinates in JavaScript arithmetic) and the gradient fill that the
code appends to whichever path was begun last. -/
inductive LineOp where
  | clear
  | stroke (pts : List (JSVal × ℚ)) (paint : LinePaint)
  | gradientFill (pts : List (JSVal × ℚ))
  deriving DecidableEq

/-- `SpectrumLine.vue` `draw` (lines 83-173): main stroked path, peak
update and optional peak path, then the gradient fill closing the last
path down to the baseline. -/
def drawLine (width height : ℚ) (fftData : List ℚ) (opts : VisOptions)
    (st : PeakSt) (raster : List LineOp) : List LineOp × PeakSt :=
  if fftData.length = 0 then (raster, st)
  else
    let n := fftData.length
    let spacing := linePointSpacing width n
    let st0 := if st.peakValues.length ≠ n then
        ⟨List.replicate n 0, List.replicate n 0⟩ else st
    let maxValue := vueMaxValue fftData
    let heights := fftData.map fun v => v / maxValue * height
    let pts := (List.range n).map fun (i : ℕ) =>
      (jsMul (.fin (i : ℚ)) spacing, height - heights.getD i 0)
    let st1 := if opts.showPeaks then updatePeaks heights st0 else st0
    let peakPts := (List.range n).map fun (i : ℕ) =>
      (jsMul (.fin (i : ℚ)) spacing, height - st1.peakValues.getD i 0)
    let basePath := if opts.showPeaks then peakPts else pts
    let ops := [LineOp.clear, LineOp.stroke pts LinePaint.cyan]
      ++ (if opts.showPeaks then [LineOp.stroke peakPts LinePaint.whitePeak] else [])
      ++ [LineOp.gradientFill (basePath ++ [(.fin width, height), (.fin 0, height)])]
    (ops, st1)

/-- Fill/stroke paints of the standalone (main.ts / simulated) canvas
functions.  `heatNaN` stands for the `rgb(255, 0, NaN)` string that
`getColor` produces when its ratio is NaN. -/
inductive P4Paint where
  | heat (c : ℤ × ℤ × ℤ)
  | heatNaN
  | white
  | lineGradient
  | whiteStroke
  deriving DecidableEq

/-- Raster primitives of the standalone canvas functions. -/
inductive P4Op where
  | clear
  | rect (x y w h : ℚ) (p : P4Paint)
  | polyFill (pts : List (ℚ × ℚ)) (p : P4Paint)
  | polyStroke (pts : List (ℚ × ℚ)) (p : P4Paint)
  | dot (x y : ℚ)
  deriving DecidableEq

/-- `drawFrequencyBars` (main.ts lines 220-257 and the simulated path's
copy, which differ only in the denominator floor `mxFloor`: 1 for main.ts,
0.1 for the simulated path): one heat-colored bar per bin, plus a small
white marker on strict local maxima when peaks are shown. -/
def drawFrequencyBars (mxFloor width height : ℚ) (magnitudes : List ℚ)
    (showPeaks : Bool) : List P4Op :=
  let n := magnitudes.length
  let barWidth := width / (n : ℚ)
  let padding := barWidth * (1 / 10)
  let mx := barsMaxWith mxFloor magnitudes
  ((List.range n).map fun (i : ℕ) =>
    let m := magnitudes.getD i 0
    let bh := m / mx * height
    let x := (i : ℚ) * barWidth
    let base := [P4Op.rect (x + padding / 2) (height - bh) (barWidth - padding) bh
      (P4Paint.heat (getColor m mx))]
    if showPeaks = true ∧ 0 < i ∧ i < n - 1 ∧
        magnitudes.getD (i - 1) 0 < m ∧ magnitudes.getD (i + 1) 0 < m then
      base ++ [P4Op.rect (x + barWidth / 2 - 1) (height - bh - 4) 2 4 P4Paint.white]
    else base).flatten

/-- `drawLineGraph` (main.ts lines 260-326 and the simulated path's copy,
again differing only in the denominator floor): gradient fill under the
curve, white stroked curve, and white dots on strict local maxima when
peaks are shown. -/
def drawLineGraph (mxFloor width height : ℚ) (magnitudes : List ℚ)
    (showPeaks : Bool) : List P4Op :=
  let n := magnitudes.length
  let mx := barsMaxWith mxFloor magnitudes
  let pt := fun (i : ℕ) =>
    ((i : ℚ) / (n : ℚ) * width, height - magnitudes.getD i 0 / mx * height)
  let fillPts := ((0 : ℚ), height) :: ((List.range n).map pt) ++ [(width, height)]
  let strokePts := (List.range n).map pt
  let dots := if showPeaks then
      (List.range n).filterMap fun (i : ℕ) =>
        if 0 < i ∧ i < n - 1 ∧ magnitudes.getD (i - 1) 0 < magnitudes.getD i 0 ∧
            magnitudes.getD (i + 1) 0 < magnitudes.getD i 0 then
          some (P4Op.dot ((i : ℚ) / (n : ℚ) * width)
            (height - magnitudes.getD i 0 / mx * height))
        else none
    else []
  [P4Op.polyFill fillPts P4Paint.lineGradient,
   P4Op.polyStroke strokePts P4Paint.whiteStroke] ++ dots

/-- The simulated path's spectrogram maximum (nested loop over the whole
history, seed 0, with no floor applied). -/
def p4SpectroMax (hist : List (List ℚ)) : ℚ :=
  hist.foldl (fun m row => row.foldl max m) 0

/-- Color of one spectrogram cell in the simulated path.  When the
history maximum is 0 the JavaScript division in `getColor` produces
`±Infinity` or `NaN`: `m / 0` for `m > 0` is `+Infinity`, which the clamp
turns into ratio 1; for `m < 0` it is `-Infinity`, clamped to ratio 0;
and `0 / 0` is `NaN`, which falls through every `<` comparison into the
last branch and yields the `rgb(255, 0, NaN)` paint.  For a nonzero
maximum the computation is the finite `getColor`. -/
def p4SpecColor (m mx : ℚ) : P4Paint :=
  if mx = 0 then
    (if 0 < m then P4Paint.heat (heatRampColor 1)
     else if m < 0 then P4Paint.heat (heatRampColor 0)
     else P4Paint.heatNaN)
  else P4Paint.heat (getColor m mx)

/-- `drawSpectrogram` of the simulated path: one cell per history slice
and bin, sliding so the newest slice is the rightmost column. -/
def p4DrawSpectrogram (width height : ℚ) (hist : List (List ℚ)) : List P4Op :=
  let historyCount := hist.length
  let barWidth := width / 200
  let barHeight := height / 256
  let mx := p4SpectroMax hist
  ((List.range historyCount).map fun (hIdx : ℕ) =>
    let x := width - ((historyCount : ℚ) - (hIdx : ℚ)) * barWidth
    let mags := hist.getD hIdx []
    (List.range mags.length).map fun (i : ℕ) =>
      P4Op.rect x (height - ((i : ℚ) + 1) * barHeight) barWidth barHeight
        (p4SpecColor (mags.getD i 0) mx)).flatten

/-- Visualization selector (`visualization-type` select element). -/
inductive VisMode where
  | bars
  | line
  | spectrogram
  deriving DecidableEq

/-- `drawVisualization` of the simulated path: clear the canvas and
dispatch on the selector (the switch's default branch also draws the
spectrogram, so the three constructors are exhaustive). -/
def drawVisualization (mode : VisMode) (width height : ℚ) (magnitudes : List ℚ)
    (hist : List (List ℚ)) (showPeaks : Bool) : List P4Op :=
  P4Op.clear :: (match mode with
    | .bars => drawFrequencyBars (1 / 10) width height magnitudes showPeaks
    | .line => drawLineGraph (1 / 10) width height magnitudes showPeaks
    | .spectrogram => p4DrawSpectrogram width height hist)

/-- Pipeline state of the simulated path: the `AnalysisState` fields
(`_interval` handle modelled by `timerActive`, `_isPaused`) together with
the page-level `fftHistory` and the canvas raster. -/
structure P4State where
  timerActive : Bool
  isPaused : Bool
  fftHistory : List (List ℚ)
  raster : List P4Op

/-- `AnalysisState.togglePause`: flips `_isPaused` and touches nothing
else — the interval handle in particular is neither cleared nor
recreated. -/
def togglePause (s : P4State) : P4State :=
  { s with isPaused := !s.isPaused }

/-- Observable effect of `processFFTData` at the pipeline level: compute
the magnitudes, push them into the history, redraw the canvas. -/
def p4ProcessFFTData (sqrt log10 : ℚ → ℚ) (logScale : Bool) (mode : VisMode)
    (showPeaks : Bool) (width height : ℚ) (fftOutput : List ℚ)
    (s : P4State) : P4State :=
  let magnitudes := processFFTData sqrt log10 logScale fftOutput 1024
  let hist := pushFrame 200 s.fftHistory magnitudes
  { s with fftHistory := hist,
           raster := drawVisualization mode width height magnitudes hist showPeaks }

/-- One firing of the `setInterval` callback installed by
`AnalysisState.start`: when `_isPaused` is set the callback does nothing
at all (no mock-data acquisition, no processing, no drawing). -/
def intervalTick (sqrt log10 : ℚ → ℚ) (logScale : Bool) (mode : VisMode)
    (showPeaks : Bool) (width height : ℚ) (fftOutput : List ℚ)
    (s : P4State) : P4State :=
  if s.isPaused then s
  else p4ProcessFFTData sqrt log10 logScale mode showPeaks width height fftOutput s

/-- A sequence of `SpectrumBars.vue` draw calls (one per watched frame
change), threading the raster and the component-local peak state. -/
def drawBarsSeq (width height : ℚ) (opts : VisOptions) (frames : List (List ℚ))
    (st : PeakSt) (raster : List BarsOp) : List BarsOp × PeakSt :=
  frames.foldl (fun acc f => drawBars width height f opts acc.2 acc.1) (raster, st)

/-- A sequence of `SpectrumLine.vue` draw calls, threading the raster and
the component-local peak state. -/
def drawLineSeq (width height : ℚ) (opts : VisOptions) (frames : List (List ℚ))
    (st : PeakSt) (raster : List LineOp) : List LineOp × PeakSt :=
  frames.foldl (fun acc f => drawLine width height f opts acc.2 acc.1) (raster, st)

/-! ## Helper lemmas -/

theorem foldl_pushFrame_eq (C : ℕ) :
    ∀ (fs : List (List ℚ)) (hist : List (List ℚ)), hist.length ≤ C →
      fs.foldl (pushFrame C) hist = (hist ++ fs).drop (hist.length + fs.length - C) := by
  intro fs
  induction fs with
  | nil =>
    intro hist hh
    simp only [List.foldl_nil, List.append_nil, List.length_nil, Nat.add_zero,
      Nat.sub_eq_zero_of_le hh, List.drop_zero]
  | cons f fs ih =>
    intro hist hh
    show fs.foldl (pushFrame C) (pushFrame C hist f) = _
    by_cases hc : C < hist.length + 1
    · have hl : hist.length = C := by omega
      have hpush : pushFrame C hist f = (hist ++ [f]).drop 1 := by
        simp only [pushFrame, List.length_append, List.length_cons, List.length_nil]
        rw [if_pos hc]
      have hlen : ((hist ++ [f]).drop 1).length = C := by
        simp [hl]
      rw [hpush, ih _ (le_of_eq hlen), hlen]
      rw [← List.drop_append_of_le_length (by simp : 1 ≤ (hist ++ [f]).length)]
      rw [List.drop_drop]
      have h2 : (hist ++ [f]) ++ fs = hist ++ f :: fs := by
        simp
      rw [h2]
      congr 1
      simp only [List.length_cons]
      omega
    · have hpush : pushFrame C hist f = hist ++ [f] := by
        simp only [pushFrame, List.length_append, List.length_cons, List.length_nil]
        rw [if_neg hc]
      have hlen : (hist ++ [f]).length ≤ C := by
        simp only [List.length_append, List.length_cons, List.length_nil]
        omega
      rw [hpush, ih _ hlen]
      have h2 : (hist ++ [f]) ++ fs = hist ++ f :: fs := by simp
      rw [h2]
      congr 1
      simp only [List.length_append, List.length_cons, List.length_nil, List.length_cons]
      omega

theorem silentTicks_hold (v : ℚ) (hv : 0 < v) :
    ∀ n, n ≤ 30 → silentTicks v n = (v, 30 - n) := by
  intro n
  induction n with
  | zero =>
    intro _
    simp [silentTicks, peakStep, hv]
  | succ n ih =>
    intro hn
    have hn' : n ≤ 30 := by omega
    rw [silentTicks, ih hn', peakStep]
    rw [if_neg (by simpa using not_lt.mpr hv.le)]
    rw [if_pos (by simp; omega)]
    have : 30 - n - 1 = 30 - (n + 1) := by omega
    simp [this]

theorem silentTicks_decay (v : ℚ) (hv : 0 < v) :
    ∀ n, silentTicks v (30 + n) = (v * (4 / 5) ^ n, 0) := by
  intro n
  induction n with
  | zero =>
    simpa using silentTicks_hold v hv 30 le_rfl
  | succ n ih =>
    have h30 : 30 + (n + 1) = (30 + n) + 1 := by omega
    rw [h30, silentTicks, ih, peakStep]
    have hq : (0 : ℚ) ≤ v * (4 / 5) ^ n := by positivity
    rw [if_neg (by simpa using not_lt.mpr hq)]
    rw [if_neg (by simp)]
    have : v * (4 / 5 : ℚ) ^ n * (4 / 5) = v * (4 / 5) ^ (n + 1) := by
      rw [pow_succ, mul_assoc]
    simp [this]

theorem foldl_max_max (l : List ℚ) : ∀ a b : ℚ, l.foldl max (max a b) = max a (l.foldl max b) := by
  induction l with
  | nil => intro a b; simp
  | cons x l ih =>
    intro a b
    simp only [List.foldl_cons]
    rw [max_assoc, ih]

theorem foldl_max_of_nonneg (l : List ℚ) (c : ℚ) (hc : 0 ≤ c) :
    l.foldl max c = max c (l.foldl max 0) := by
  have h := foldl_max_max l c 0
  rwa [max_eq_left hc] at h

theorem le_foldl_max (l : List ℚ) : ∀ c : ℚ, c ≤ l.foldl max c := by
  induction l with
  | nil => intro c; simp
  | cons x l ih =>
    intro c
    simp only [List.foldl_cons]
    exact le_trans (le_max_left c x) (ih (max c x))

theorem specMax_foldl_eq (hist : List (List ℚ)) : ∀ a : ℚ, 0 ≤ a →
    hist.foldl (fun m f => max m (specFrameMax f)) a = max a (hist.flatten.foldl max 0) := by
  induction hist with
  | nil => intro a ha; simp [max_eq_left ha]
  | cons f t ih =>
    intro a ha
    simp only [List.foldl_cons, List.flatten_cons]
    have hFf : (0 : ℚ) ≤ specFrameMax f := le_foldl_max f 0
    rw [ih (max a (specFrameMax f)) (le_trans ha (le_max_left _ _))]
    rw [List.foldl_append]
    rw [show f.foldl max 0 = specFrameMax f from rfl]
    rw [foldl_max_of_nonneg t.flatten _ hFf, max_assoc]

theorem nested_foldl_max (hist : List (List ℚ)) : ∀ a : ℚ,
    hist.foldl (fun m row => row.foldl max m) a = hist.flatten.foldl max a := by
  induction hist with
  | nil => intro a; simp
  | cons f t ih =>
    intro a
    simp only [List.foldl_cons, List.flatten_cons, List.foldl_append]
    rw [ih]

theorem getD_eq_zero_of_all_zero : ∀ (f : List ℚ), (∀ v ∈ f, v = 0) → ∀ i, f.getD i 0 = 0 := by
  intro f
  induction f with
  | nil =>
    intro _ i
    simp
  | cons a t ih =>
    intro hz i
    cases i with
    | zero => simpa using hz a (by simp)
    | succ j =>
      simp only [List.getD_cons_succ]
      exact ih (fun v hv => hz v (by simp [hv])) j

theorem foldl_max_all_zero : ∀ (f : List ℚ) (c : ℚ), 0 ≤ c → (∀ v ∈ f, v = 0) →
    f.foldl max c = c := by
  intro f
  induction f with
  | nil => intro c _ _; rfl
  | cons a t ih =>
    intro c hc hz
    simp only [List.foldl_cons]
    rw [hz a (by simp), max_eq_left hc]
    exact ih c hc fun v hv => hz v (by simp [hv])


theorem drawBars_state_of_false (w h : ℚ) (f : List ℚ) (opts : VisOptions)
    (st : PeakSt) (r : List BarsOp) (hsp : opts.showPeaks = false)
    (hlen : f = [] ∨ f.length = st.peakValues.length) :
    (drawBars w h f opts st r).2 = st := by
  by_cases hf : f.length = 0
  · simp only [drawBars, if_pos hf]
  · have hl : f.length = st.peakValues.length := by
      rcases hlen with rfl | hl
      · exact absurd rfl hf
      · exact hl
    simp only [drawBars, if_neg hf, hsp, Bool.false_eq_true, if_false]
    rw [if_neg fun hne => hne hl.symm]

theorem drawLine_state_of_false (w h : ℚ) (f : List ℚ) (opts : VisOptions)
    (st : PeakSt) (r : List LineOp) (hsp : opts.showPeaks = false)
    (hlen : f = [] ∨ f.length = st.peakValues.length) :
    (drawLine w h f opts st r).2 = st := by
  by_cases hf : f.length = 0
  · simp only [drawLine, if_pos hf]
  · have hl : f.length = st.peakValues.length := by
      rcases hlen with rfl | hl
      · exact absurd rfl hf
      · exact hl
    simp only [drawLine, if_neg hf, hsp, Bool.false_eq_true, if_false]
    rw [if_neg fun hne => hne hl.symm]

theorem drawBarsSeq_state (w h : ℚ) (opts : VisOptions) (hsp : opts.showPeaks = false) :
    ∀ (frames : List (List ℚ)) (st : PeakSt) (r : List BarsOp),
      (∀ f ∈ frames, f = [] ∨ f.length = st.peakValues.length) →
      (drawBarsSeq w h opts frames st r).2 = st := by
  intro frames
  induction frames with
  | nil => intro st r _; rfl
  | cons f rest ih =>
    intro st r hh
    have hstep : (drawBars w h f opts st r).2 = st :=
      drawBars_state_of_false w h f opts st r hsp (hh f (by simp))
    have hd : drawBars w h f opts st r = ((drawBars w h f opts st r).1, st) :=
      Prod.ext rfl hstep
    show (List.foldl (fun acc g => drawBars w h g opts acc.2 acc.1)
      (drawBars w h f opts st r) rest).2 = st
    rw [hd]
    exact ih st _ (fun g hg => hh g (List.mem_cons_of_mem f hg))

theorem drawLineSeq_state (w h : ℚ) (opts : VisOptions) (hsp : opts.showPeaks = false) :
    ∀ (frames : List (List ℚ)) (st : PeakSt) (r : List LineOp),
      (∀ f ∈ frames, f = [] ∨ f.length = st.peakValues.length) →
      (drawLineSeq w h opts frames st r).2 = st := by
  intro frames
  induction frames with
  | nil => intro st r _; rfl
  | cons f rest ih =>
    intro st r hh
    have hstep : (drawLine w h f opts st r).2 = st :=
      drawLine_state_of_false w h f opts st r hsp (hh f (by simp))
    have hd : drawLine w h f opts st r = ((drawLine w h f opts st r).1, st) :=
      Prod.ext rfl hstep
    show (List.foldl (fun acc g => drawLine w h g opts acc.2 acc.1)
      (drawLine w h f opts st r) rest).2 = st
    rw [hd]
    exact ih st _ (fun g hg => hh g (List.mem_cons_of_mem f hg))

theorem drawBars_repeat_of_false (w h : ℚ) (f : List ℚ) (opts : VisOptions)
    (st : PeakSt) (r : List BarsOp) (hsp : opts.showPeaks = false) :
    drawBars w h f opts (drawBars w h f opts st r).2 (drawBars w h f opts st r).1
      = drawBars w h f opts st r := by
  by_cases hf : f.length = 0
  · simp only [drawBars, if_pos hf]
  · simp only [drawBars, if_neg hf, hsp, Bool.false_eq_true, if_false]
    by_cases hst : st.peakValues.length ≠ f.length
    · rw [if_pos hst, if_neg (by simp)]
    · rw [if_neg hst, if_neg hst]

theorem drawLine_repeat_of_false (w h : ℚ) (f : List ℚ) (opts : VisOptions)
    (st : PeakSt) (r : List LineOp) (hsp : opts.showPeaks = false) :
    drawLine w h f opts (drawLine w h f opts st r).2 (drawLine w h f opts st r).1
      = drawLine w h f opts st r := by
  by_cases hf : f.length = 0
  · simp only [drawLine, if_pos hf]
  · simp only [drawLine, if_neg hf, hsp, Bool.false_eq_true, if_false]
    by_cases hst : st.peakValues.length ≠ f.length
    · rw [if_pos hst, if_neg (by simp)]
    · rw [if_neg hst, if_neg hst]

theorem floor_eq_of_bounds (r : ℚ) (z : ℤ) (h1 : (z : ℚ) ≤ r) (h2 : r < z + 1) :
    ⌊r⌋ = z :=
  Int.floor_eq_iff.mpr ⟨h1, h2⟩

/-! ## Claim theorems -/

/-- C2: the history buffer's length never exceeds the capacity `C`
(200 by default), and pushing any sequence of frames into an initially
empty buffer leaves exactly the last `C` pushed frames, in push order
(oldest first): the result is `fs.drop (fs.length - C)`, so after pushing
`C + k` frames the buffer is the last `C` of them. -/
theorem C2_history_buffer (C : ℕ) (fs : List (List ℚ)) :
    (fs.foldl (pushFrame C) []).length ≤ C ∧
    fs.foldl (pushFrame C) [] = fs.drop (fs.length - C) := by
  have h := foldl_pushFrame_eq C fs [] (by simp)
  simp only [List.nil_append, List.length_nil, Nat.zero_add] at h
  refine ⟨?_, h⟩
  rw [h, List.length_drop]
  omega

/-- C3: for the peak tracker of one bin, after a spike of height `v > 0`
at tick 0 followed by silence, the stored peak stays at `v` for exactly
`H = 30` ticks (it still equals `v` after 30 silent ticks and is strictly
below `v` after 31), then decays by the factor `D = 4/5` per tick
(`peak = v * (4/5)^n` after `30 + n` silent ticks); the peak never
increases from tick to tick, and in general one tracker step with an
input not exceeding the stored nonnegative peak never raises the peak. -/
theorem C3_peak_tracker (v : ℚ) (hv : 0 < v) :
    (∀ n, n ≤ 30 → (silentTicks v n).1 = v) ∧
    (∀ n, (silentTicks v (30 + n)).1 = v * (4 / 5) ^ n) ∧
    (silentTicks v 31).1 < v ∧
    (∀ n, (silentTicks v (n + 1)).1 ≤ (silentTicks v n).1) ∧
    (∀ (h p : ℚ) (c : ℕ), h ≤ p → 0 ≤ p → (peakStep h (p, c)).1 ≤ p) := by
  refine ⟨?_, ?_, ?_, ?_, ?_⟩
  · intro n hn
    rw [silentTicks_hold v hv n hn]
  · intro n
    rw [silentTicks_decay v hv n]
  · have h31 : (31 : ℕ) = 30 + 1 := by norm_num
    rw [h31, silentTicks_decay v hv 1]
    nlinarith
  · intro n
    rcases le_or_lt (n + 1) 30 with h | h
    · rw [silentTicks_hold v hv (n + 1) h, silentTicks_hold v hv n (by omega)]
    · obtain ⟨m, rfl⟩ : ∃ m, n = 30 + m := ⟨n - 30, by omega⟩
      have hsucc : 30 + m + 1 = 30 + (m + 1) := by omega
      rw [hsucc, silentTicks_decay v hv (m + 1), silentTicks_decay v hv m]
      have hpow : (4 / 5 : ℚ) ^ (m + 1) ≤ (4 / 5) ^ m :=
        pow_le_pow_of_le_one (by norm_num) (by norm_num) (Nat.le_succ m)
      exact mul_le_mul_of_nonneg_left hpow hv.le
  · intro h p c hh hp
    rw [peakStep]
    rw [if_neg (by simpa using not_lt.mpr hh)]
    by_cases hc : 0 < c
    · rw [if_pos (by simpa using hc)]
    · rw [if_neg (by simpa using hc)]
      nlinarith

/-- Witness for C3 at the concrete spike height `v = 2`. -/
theorem C3_witness :
    (silentTicks 2 3).1 = 2 ∧ (silentTicks 2 (30 + 2)).1 = 2 * (4 / 5) ^ 2 :=
  ⟨(C3_peak_tracker 2 (by norm_num)).1 3 (by norm_num),
   (C3_peak_tracker 2 (by norm_num)).2.1 2⟩

/-- C5: the spectrogram renderers normalize the newly painted column
against the maximum magnitude across the ENTIRE retained history window:
the `Spectrogram.vue` normalization maximum — and main.ts's — equals
`max 1 (maximum over every magnitude of every buffered frame)`, not the
maximum of the current frame alone; concretely, with history `[[4]]` and
current frame `[2]` the painted column value is `2 / 4 * 255`, not the
`2 / 2 * 255` that current-frame normalization would give. -/
theorem C5_spectrogram_history_max :
    (∀ hist : List (List ℚ), specMaxValue hist = max 1 (hist.flatten.foldl max 0)) ∧
    (∀ hist : List (List ℚ),
      mainSpectroMaxMagnitude hist = max 1 (hist.flatten.foldl max 0)) ∧
    specColumnValue [[4]] [2] 0 = 255 / 2 ∧
    specColumnValue [[4]] [2] 0 ≠ 2 / max 1 (specFrameMax [2]) * 255 := by
  refine ⟨?_, ?_, ?_, ?_⟩
  · intro hist
    exact specMax_foldl_eq hist 1 (by norm_num)
  · intro hist
    unfold mainSpectroMaxMagnitude
    rw [nested_foldl_max, max_comm]
  · norm_num [specColumnValue, specMaxValue, specFrameMax]
  · norm_num [specColumnValue, specMaxValue, specFrameMax]

/-- C6: both magnitude paths produce a frame of length exactly
`min(256, available bins)` containing only nonnegative values — the byte
path because a positive byte `b` gives `log10(b + 1) * 50 ≥ 0` (the
abstract `log10` is only assumed nonnegative from 2 upward, as the real
`log10` is), the FFT path because of the final `Math.max(0, magnitude)`
clamp, which makes it nonnegative for arbitrary `sqrt` and `log10`. -/
theorem C6_magnitude_processor (log10 sqrt : ℚ → ℚ)
    (hlog : ∀ x : ℚ, 2 ≤ x → 0 ≤ log10 x) (logScale : Bool)
    (frequencyData : List ℕ) (fftOutput : List ℚ) (size : ℕ) :
    ((processAudioData log10 logScale frequencyData).length
        = min 256 frequencyData.length ∧
      ∀ m ∈ processAudioData log10 logScale frequencyData, 0 ≤ m) ∧
    ((processFFTData sqrt log10 logScale fftOutput size).length
        = min 256 (size / 2) ∧
      ∀ m ∈ processFFTData sqrt log10 logScale fftOutput size, 0 ≤ m) := by
  refine ⟨⟨?_, ?_⟩, ?_, ?_⟩
  · rw [processAudioData, List.length_map, List.length_take]
  · intro m hm
    simp only [processAudioData, List.mem_map] at hm
    obtain ⟨b, _, rfl⟩ := hm
    by_cases h : logScale = true ∧ 0 < b
    · rw [if_pos h]
      have hb : 1 ≤ b := h.2
      have h1 : (1 : ℚ) ≤ (b : ℚ) := by exact_mod_cast hb
      exact mul_nonneg (hlog _ (by linarith)) (by norm_num)
    · rw [if_neg h]
      exact Nat.cast_nonneg b
  · rw [processFFTData, List.length_map, List.length_range]
  · intro m hm
    simp only [processFFTData, List.mem_map] at hm
    obtain ⟨i, _, rfl⟩ := hm
    exact le_max_left 0 _

/-- Witness for C6 with `log10` instantiated by the zero function (which
satisfies the assumed property of the real `log10`) on a concrete
two-byte frame. -/
theorem C6_witness :
    (processAudioData (fun _ => 0) true [3, 0]).length
        = min 256 ([3, 0] : List ℕ).length ∧
    ∀ m ∈ processAudioData (fun _ => 0) true [3, 0], 0 ≤ m :=
  (C6_magnitude_processor (fun _ => 0) (fun _ => 0)
    (fun _ _ => le_refl 0) true [3, 0] [] 0).1

/-- C7 counterexample: the claim's reason — "the normalization denominator
is floored to a minimum of 1 in every bars-rendering path" — fails: the
simulated path's `drawFrequencyBars` floors its denominator at 0.1
(`Math.max(maxMagnitude, 0.1)`), so for the all-zero frame the
denominator is 1/10, not at least 1. -/
theorem C7_counterexample :
    p4BarsMax [0, 0, 0] = 1 / 10 ∧ ¬ (1 ≤ p4BarsMax [0, 0, 0]) := by
  constructor
  · norm_num [p4BarsMax, barsMaxWith]
  · norm_num [p4BarsMax, barsMaxWith]

/-- C7 amended: for an all-zero magnitude frame no bars path divides by
zero and every bar is drawn at height 0; the normalization denominator is
floored to 1 in the `SpectrumBars.vue` path and in main.ts's
`drawFrequencyBars`, but only to 0.1 in the simulated path's copy — in
every path it is positive, which is what makes the zero-height bars
well-defined. -/
theorem C7_zero_frame_bars (f : List ℚ) (w h : ℚ) (opts : VisOptions)
    (st : PeakSt) (sp : Bool) (hz : ∀ v ∈ f, v = 0) :
    (vueMaxValue f = 1 ∧ mainBarsMax f = 1 ∧ p4BarsMax f = 1 / 10) ∧
    (0 < vueMaxValue f ∧ 0 < mainBarsMax f ∧ 0 < p4BarsMax f) ∧
    (∀ x y bw bh hue, BarsOp.bar x y bw bh hue ∈ (drawBars w h f opts st []).1 → bh = 0) ∧
    (∀ x y w1 h1 p, P4Op.rect x y w1 h1 p ∈ drawFrequencyBars 1 w h f sp → h1 = 0) ∧
    (∀ x y w1 h1 p, P4Op.rect x y w1 h1 p ∈ drawFrequencyBars (1 / 10) w h f sp → h1 = 0) := by
  have hg : ∀ j, f.getD j 0 = 0 := getD_eq_zero_of_all_zero f hz
  have hvue : vueMaxValue f = 1 := foldl_max_all_zero f 1 (by norm_num) hz
  have hmain : mainBarsMax f = 1 := by
    rw [mainBarsMax, barsMaxWith, foldl_max_all_zero f 0 le_rfl hz]
    norm_num
  have hp4 : p4BarsMax f = 1 / 10 := by
    rw [p4BarsMax, barsMaxWith, foldl_max_all_zero f 0 le_rfl hz]
    norm_num
  have hbars : ∀ (mxFloor : ℚ) (x y w1 h1 : ℚ) (p : P4Paint),
      P4Op.rect x y w1 h1 p ∈ drawFrequencyBars mxFloor w h f sp → h1 = 0 := by
    intro mxFloor x y w1 h1 p hmem
    simp only [drawFrequencyBars, List.mem_flatten, List.mem_map, List.mem_range] at hmem
    obtain ⟨l, ⟨i, hi, rfl⟩, hm2⟩ := hmem
    rw [if_neg (by
      rintro ⟨-, -, -, h4, -⟩
      rw [hg, hg] at h4
      exact lt_irrefl 0 h4)] at hm2
    simp only [List.mem_cons, List.not_mem_nil, or_false] at hm2
    have := (P4Op.rect.injEq _ _ _ _ _ _ _ _ _ _).mp hm2
    rw [this.2.2.2.1, hg i, zero_div, zero_mul]
  refine ⟨⟨hvue, hmain, hp4⟩,
    ⟨by rw [hvue]; norm_num, by rw [hmain]; norm_num, by rw [hp4]; norm_num⟩,
    ?_, hbars 1, hbars (1 / 10)⟩
  intro x y bw bh hue hmem
  by_cases hf : f.length = 0
  · simp only [drawBars] at hmem
    rw [if_pos hf] at hmem
    exact absurd hmem (List.not_mem_nil _)
  · simp only [drawBars] at hmem
    rw [if_neg hf] at hmem
    have hzh : ∀ v ∈ f.map fun v => v / vueMaxValue f * h, v = 0 := by
      intro v hv
      simp only [List.mem_map] at hv
      obtain ⟨v0, hv0, rfl⟩ := hv
      rw [hz v0 hv0, zero_div, zero_mul]
    have hgh : ∀ j, (f.map fun v => v / vueMaxValue f * h).getD j 0 = 0 :=
      getD_eq_zero_of_all_zero _ hzh
    simp only [List.mem_cons, List.mem_flatten, List.mem_map, List.mem_range] at hmem
    rcases hmem with hmem | ⟨l, ⟨i, hi, rfl⟩, hm2⟩
    · exact absurd hmem (by simp)
    · by_cases hsp : opts.showPeaks
      · rw [if_pos hsp] at hm2
        simp only [List.mem_cons, List.not_mem_nil, or_false] at hm2
        rcases hm2 with hm2 | hm2
        · have := (BarsOp.bar.injEq _ _ _ _ _ _ _ _ _ _).mp hm2
          rw [this.2.2.2.1, hgh i]
        · exact absurd hm2 (by simp)
      · rw [if_neg hsp] at hm2
        simp only [List.mem_cons, List.not_mem_nil, or_false] at hm2
        have := (BarsOp.bar.injEq _ _ _ _ _ _ _ _ _ _).mp hm2
        rw [this.2.2.2.1, hgh i]

/-- Witness for C7 on the concrete frame `[0, 0, 0]`. -/
theorem C7_witness :
    vueMaxValue [0, 0, 0] = 1 ∧ mainBarsMax [0, 0, 0] = 1 ∧
    p4BarsMax [0, 0, 0] = 1 / 10 :=
  (C7_zero_frame_bars [0, 0, 0] 800 500 ⟨true, true⟩ ⟨[], []⟩ true
    (by intro v hv; simp only [List.mem_cons, List.not_mem_nil, or_false] at hv
        rcases hv with rfl | rfl | rfl <;> rfl)).1

/-- C4 counterexample: the claim asserts the 5-segment one-channel-per-
segment structure "at every call site of the color mapping, including the
spectrogram's per-pixel color function", but `Spectrogram.vue`'s
`valueToColor` is a different, three-segment map.  The inputs 90 and 100
both normalize (ratio = value/255) into the claimed second segment
`[0.2, 0.4)`, where per the claim only the blue channel may ramp and red
is held constant, yet `valueToColor` yields red 15 at 90 and red 45 at
100 — two channels change within one claimed segment — and
`valueToColor 90` differs from the 5-segment ramp at the same normalized
ratio. -/
theorem C4_counterexample :
    (1 / 5 ≤ (90 : ℚ) / 255 ∧ (90 : ℚ) / 255 < 2 / 5) ∧
    (1 / 5 ≤ (100 : ℚ) / 255 ∧ (100 : ℚ) / 255 < 2 / 5) ∧
    valueToColor 90 = (15, 255, 240) ∧
    valueToColor 100 = (45, 255, 210) ∧
    (valueToColor 90).1 ≠ (valueToColor 100).1 ∧
    valueToColor 90 ≠ heatRampColor ((90 : ℚ) / 255) := by
  have h90 : valueToColor 90 = (15, 255, 240) := by
    simp only [valueToColor]; norm_num
  have h100 : valueToColor 100 = (45, 255, 210) := by
    simp only [valueToColor]; norm_num
  have hramp : heatRampColor ((90 : ℚ) / 255) = (0, 255, 60) := by
    simp only [heatRampColor]; norm_num
  refine ⟨⟨by norm_num, by norm_num⟩, ⟨by norm_num, by norm_num⟩, h90, h100, ?_, ?_⟩
  · rw [h90, h100]; norm_num
  · rw [h90, hramp]; simp

/-- C4 amended: `getColor` (main.ts and the simulated path) does map its
clamped ratio through exactly five equal segments with breakpoints at
0.2/0.4/0.6/0.8, each segment ramping exactly one floored linear channel
with the other two held constant, and it is continuous at every segment
boundary (approaching from either side changes each channel by at most
one rounding unit).  The spectrogram component's `valueToColor`, however,
is NOT that mapping: it uses three segments with breakpoints 85 and 170
on a 0-255 domain, and its middle segment ramps two channels; it is
nonetheless continuous at its own breakpoints in the same
one-rounding-unit sense. -/
theorem C4_color_mapper :
    (∀ t : ℚ, 0 ≤ t → t < 1 / 5 → heatRampColor t = (0, ⌊(1275 : ℚ) * t⌋, 255)) ∧
    (∀ t : ℚ, 1 / 5 ≤ t → t < 2 / 5 →
      heatRampColor t = (0, 255, ⌊(255 : ℚ) - 1275 * (t - 1 / 5)⌋)) ∧
    (∀ t : ℚ, 2 / 5 ≤ t → t < 3 / 5 →
      heatRampColor t = (⌊(1275 : ℚ) * (t - 2 / 5)⌋, 255, 0)) ∧
    (∀ t : ℚ, 3 / 5 ≤ t → t < 4 / 5 →
      heatRampColor t = (255, ⌊(255 : ℚ) - 1275 * (t - 3 / 5)⌋, 0)) ∧
    (∀ t : ℚ, 4 / 5 ≤ t → heatRampColor t = (255, 0, ⌊(1275 : ℚ) * (t - 4 / 5)⌋)) ∧
    (∀ t : ℚ, 1 / 5 - 1 / 1275 < t → t < 1 / 5 →
      rgbClose (heatRampColor t) (heatRampColor (1 / 5))) ∧
    (∀ t : ℚ, 1 / 5 < t → t < 1 / 5 + 1 / 1275 →
      rgbClose (heatRampColor t) (heatRampColor (1 / 5))) ∧
    (∀ t : ℚ, 2 / 5 - 1 / 1275 < t → t < 2 / 5 →
      rgbClose (heatRampColor t) (heatRampColor (2 / 5))) ∧
    (∀ t : ℚ, 2 / 5 < t → t < 2 / 5 + 1 / 1275 →
      rgbClose (heatRampColor t) (heatRampColor (2 / 5))) ∧
    (∀ t : ℚ, 3 / 5 - 1 / 1275 < t → t < 3 / 5 →
      rgbClose (heatRampColor t) (heatRampColor (3 / 5))) ∧
    (∀ t : ℚ, 3 / 5 < t → t < 3 / 5 + 1 / 1275 →
      rgbClose (heatRampColor t) (heatRampColor (3 / 5))) ∧
    (∀ t : ℚ, 4 / 5 - 1 / 1275 < t → t < 4 / 5 →
      rgbClose (heatRampColor t) (heatRampColor (4 / 5))) ∧
    (∀ t : ℚ, 4 / 5 < t → t < 4 / 5 + 1 / 1275 →
      rgbClose (heatRampColor t) (heatRampColor (4 / 5))) ∧
    (∀ t : ℚ, 85 - 1 / 3 < t → t < 85 → rgbClose (valueToColor t) (valueToColor 85)) ∧
    (∀ t : ℚ, 85 < t → t < 85 + 1 / 3 → rgbClose (valueToColor t) (valueToColor 85)) ∧
    (∀ t : ℚ, 170 - 1 / 3 < t → t < 170 →
      rgbClose (valueToColor t) (valueToColor 170)) ∧
    (∀ t : ℚ, 170 < t → t < 170 + 1 / 3 →
      rgbClose (valueToColor t) (valueToColor 170)) := by
  have hb1 : heatRampColor (1 / 5) = (0, 255, 255) := by
    simp only [heatRampColor]; norm_num
  have hb2 : heatRampColor (2 / 5) = (0, 255, 0) := by
    simp only [heatRampColor]; norm_num
  have hb3 : heatRampColor (3 / 5) = (255, 255, 0) := by
    simp only [heatRampColor]; norm_num
  have hb4 : heatRampColor (4 / 5) = (255, 0, 0) := by
    simp only [heatRampColor]; norm_num
  have hv85 : valueToColor 85 = (0, 255, 255) := by
    simp only [valueToColor]; norm_num
  have hv170 : valueToColor 170 = (255, 255, 0) := by
    simp only [valueToColor]; norm_num
  refine ⟨?_, ?_, ?_, ?_, ?_, ?_, ?_, ?_, ?_, ?_, ?_, ?_, ?_, ?_, ?_, ?_, ?_⟩
  · intro t _ h1
    simp only [heatRampColor]
    rw [if_pos h1]
    have e : (255 : ℚ) * (t / (1 / 5)) = 1275 * t := by ring
    rw [e]
  · intro t h1 h2
    simp only [heatRampColor]
    rw [if_neg (not_lt.mpr h1), if_pos h2]
    have e : (255 : ℚ) * (1 - (t - 1 / 5) / (1 / 5)) = 255 - 1275 * (t - 1 / 5) := by
      ring
    rw [e]
  · intro t h1 h2
    simp only [heatRampColor]
    rw [if_neg (not_lt.mpr (by linarith)), if_neg (not_lt.mpr h1), if_pos h2]
    have e : (255 : ℚ) * ((t - 2 / 5) / (1 / 5)) = 1275 * (t - 2 / 5) := by ring
    rw [e]
  · intro t h1 h2
    simp only [heatRampColor]
    rw [if_neg (not_lt.mpr (by linarith)), if_neg (not_lt.mpr (by linarith)),
      if_neg (not_lt.mpr h1), if_pos h2]
    have e : (255 : ℚ) * (1 - (t - 3 / 5) / (1 / 5)) = 255 - 1275 * (t - 3 / 5) := by
      ring
    rw [e]
  · intro t h1
    simp only [heatRampColor]
    rw [if_neg (not_lt.mpr (by linarith)), if_neg (not_lt.mpr (by linarith)),
      if_neg (not_lt.mpr (by linarith)), if_neg (not_lt.mpr h1)]
    have e : (255 : ℚ) * ((t - 4 / 5) / (1 / 5)) = 1275 * (t - 4 / 5) := by ring
    rw [e]
  · intro t h1 h2
    rw [hb1]
    simp only [heatRampColor]
    rw [if_pos h2]
    have e : (255 : ℚ) * (t / (1 / 5)) = 1275 * t := by ring
    rw [e, floor_eq_of_bounds (1275 * t) 254 (by push_cast; linarith)
      (by push_cast; linarith)]
    exact ⟨by norm_num, by norm_num, by norm_num⟩
  · intro t h1 h2
    rw [hb1]
    simp only [heatRampColor]
    rw [if_neg (not_lt.mpr h1.le), if_pos (by linarith : t < 2 / 5)]
    have e : (255 : ℚ) * (1 - (t - 1 / 5) / (1 / 5)) = 255 - 1275 * (t - 1 / 5) := by
      ring
    rw [e, floor_eq_of_bounds _ 254 (by push_cast; linarith) (by push_cast; linarith)]
    exact ⟨by norm_num, by norm_num, by norm_num⟩
  · intro t h1 h2
    rw [hb2]
    simp only [heatRampColor]
    rw [if_neg (not_lt.mpr (by linarith : 1 / 5 ≤ t)), if_pos h2]
    have e : (255 : ℚ) * (1 - (t - 1 / 5) / (1 / 5)) = 255 - 1275 * (t - 1 / 5) := by
      ring
    rw [e, floor_eq_of_bounds _ 0 (by push_cast; linarith) (by push_cast; linarith)]
    exact ⟨by norm_num, by norm_num, by norm_num⟩
  · intro t h1 h2
    rw [hb2]
    simp only [heatRampColor]
    rw [if_neg (not_lt.mpr (by linarith : 1 / 5 ≤ t)), if_neg (not_lt.mpr h1.le),
      if_pos (by linarith : t < 3 / 5)]
    have e : (255 : ℚ) * ((t - 2 / 5) / (1 / 5)) = 1275 * (t - 2 / 5) := by ring
    rw [e, floor_eq_of_bounds _ 0 (by push_cast; linarith) (by push_cast; linarith)]
    exact ⟨by norm_num, by norm_num, by norm_num⟩
  · intro t h1 h2
    rw [hb3]
    simp only [heatRampColor]
    rw [if_neg (not_lt.mpr (by linarith : 1 / 5 ≤ t)),
      if_neg (not_lt.mpr (by linarith : 2 / 5 ≤ t)), if_pos h2]
    have e : (255 : ℚ) * ((t - 2 / 5) / (1 / 5)) = 1275 * (t - 2 / 5) := by ring
    rw [e, floor_eq_of_bounds _ 254 (by push_cast; linarith) (by push_cast; linarith)]
    exact ⟨by norm_num, by norm_num, by norm_num⟩
  · intro t h1 h2
    rw [hb3]
    simp only [heatRampColor]
    rw [if_neg (not_lt.mpr (by linarith : 1 / 5 ≤ t)),
      if_neg (not_lt.mpr (by linarith : 2 / 5 ≤ t)), if_neg (not_lt.mpr h1.le),
      if_pos (by linarith : t < 4 / 5)]
    have e : (255 : ℚ) * (1 - (t - 3 / 5) / (1 / 5)) = 255 - 1275 * (t - 3 / 5) := by
      ring
    rw [e, floor_eq_of_bounds _ 254 (by push_cast; linarith) (by push_cast; linarith)]
    exact ⟨by norm_num, by norm_num, by norm_num⟩
  · intro t h1 h2
    rw [hb4]
    simp only [heatRampColor]
    rw [if_neg (not_lt.mpr (by linarith : 1 / 5 ≤ t)),
      if_neg (not_lt.mpr (by linarith : 2 / 5 ≤ t)),
      if_neg (not_lt.mpr (by linarith : 3 / 5 ≤ t)), if_pos h2]
    have e : (255 : ℚ) * (1 - (t - 3 / 5) / (1 / 5)) = 255 - 1275 * (t - 3 / 5) := by
      ring
    rw [e, floor_eq_of_bounds _ 0 (by push_cast; linarith) (by push_cast; linarith)]
    exact ⟨by norm_num, by norm_num, by norm_num⟩
  · intro t h1 h2
    rw [hb4]
    simp only [heatRampColor]
    rw [if_neg (not_lt.mpr (by linarith : 1 / 5 ≤ t)),
      if_neg (not_lt.mpr (by linarith : 2 / 5 ≤ t)),
      if_neg (not_lt.mpr (by linarith : 3 / 5 ≤ t)), if_neg (not_lt.mpr h1.le)]
    have e : (255 : ℚ) * ((t - 4 / 5) / (1 / 5)) = 1275 * (t - 4 / 5) := by ring
    rw [e, floor_eq_of_bounds _ 0 (by push_cast; linarith) (by push_cast; linarith)]
    exact ⟨by norm_num, by norm_num, by norm_num⟩
  · intro t h1 h2
    rw [hv85]
    simp only [valueToColor]
    rw [max_eq_right (by linarith : (0 : ℚ) ≤ t), min_eq_right (by linarith : t ≤ 255)]
    rw [if_pos h2]
    rw [floor_eq_of_bounds (t * 3) 254 (by push_cast; linarith) (by push_cast; linarith)]
    exact ⟨by norm_num, by norm_num, by norm_num⟩
  · intro t h1 h2
    rw [hv85]
    simp only [valueToColor]
    rw [max_eq_right (by linarith : (0 : ℚ) ≤ t), min_eq_right (by linarith : t ≤ 255)]
    rw [if_neg (not_lt.mpr h1.le), if_pos (by linarith : t < 170)]
    rw [floor_eq_of_bounds ((t - 85) * 3) 0 (by push_cast; linarith)
      (by push_cast; linarith)]
    exact ⟨by norm_num, by norm_num, by norm_num⟩
  · intro t h1 h2
    rw [hv170]
    simp only [valueToColor]
    rw [max_eq_right (by linarith : (0 : ℚ) ≤ t), min_eq_right (by linarith : t ≤ 255)]
    rw [if_neg (not_lt.mpr (by linarith : (85 : ℚ) ≤ t)), if_pos h2]
    rw [floor_eq_of_bounds ((t - 85) * 3) 254 (by push_cast; linarith)
      (by push_cast; linarith)]
    exact ⟨by norm_num, by norm_num, by norm_num⟩
  · intro t h1 h2
    rw [hv170]
    simp only [valueToColor]
    rw [max_eq_right (by linarith : (0 : ℚ) ≤ t), min_eq_right (by linarith : t ≤ 255)]
    rw [if_neg (not_lt.mpr (by linarith : (85 : ℚ) ≤ t)), if_neg (not_lt.mpr h1.le)]
    rw [floor_eq_of_bounds ((t - 170) * 3) 0 (by push_cast; linarith)
      (by push_cast; linarith)]
    exact ⟨by norm_num, by norm_num, by norm_num⟩

/-- Witness for C4 just left of the first breakpoint. -/
theorem C4_witness :
    rgbClose (heatRampColor (1 / 5 - 1 / 2550)) (heatRampColor (1 / 5)) :=
  C4_color_mapper.2.2.2.2.2.1 (1 / 5 - 1 / 2550) (by norm_num) (by norm_num)

/-- C1 counterexample: with peaks enabled the draw step is not idempotent
on the raster.  Starting from peak state `([10, 0], [0, 0])` (a stale peak
of 10 on bin 0, past its hold window) and frame `[0, 10]`, the first draw
decays bin 0's peak to 8 and paints its marker at `y = 2`; drawing the
very same frame and options again decays it further to 6.4 and paints the
marker at `y = 18/5`, so the second raster differs from the first. -/
theorem C1_counterexample :
    (drawBars 2 10 [0, 10] ⟨false, true⟩
        (drawBars 2 10 [0, 10] ⟨false, true⟩ ⟨[10, 0], [0, 0]⟩ []).2
        (drawBars 2 10 [0, 10] ⟨false, true⟩ ⟨[10, 0], [0, 0]⟩ []).1).1
      ≠ (drawBars 2 10 [0, 10] ⟨false, true⟩ ⟨[10, 0], [0, 0]⟩ []).1 := by
  have h1 : drawBars 2 10 [0, 10] ⟨false, true⟩ ⟨[10, 0], [0, 0]⟩ []
      = ([BarsOp.clear,
          BarsOp.bar (1 / 20) 10 (9 / 10) 0 0, BarsOp.peakMark (1 / 20) 2 (9 / 10),
          BarsOp.bar (21 / 20) 0 (9 / 10) 10 120, BarsOp.peakMark (21 / 20) 0 (9 / 10)],
         ⟨[8, 10], [0, 30]⟩) := by
    norm_num [drawBars, updatePeaks, peakStep, vueMaxValue, List.range_succ]
  rw [h1]
  norm_num [drawBars, updatePeaks, peakStep, vueMaxValue, List.range_succ]

/-- C1 amended: the draw step is a (pure) function of the frame, options,
dimensions and stored per-bin peak state, and when `showPeaks` is off a
repeated draw of the same frame and options returns the identical raster
and state for both the Bars and the Line renderer; with `showPeaks` on the
draw itself mutates the peak state, and a repeated draw can move decaying
peak markers, changing the raster. -/
theorem C1_repeat_draw (w h : ℚ) (f : List ℚ) (opts : VisOptions) (st : PeakSt)
    (rB : List BarsOp) (rL : List LineOp) (hsp : opts.showPeaks = false) :
    drawBars w h f opts (drawBars w h f opts st rB).2 (drawBars w h f opts st rB).1
      = drawBars w h f opts st rB ∧
    drawLine w h f opts (drawLine w h f opts st rL).2 (drawLine w h f opts st rL).1
      = drawLine w h f opts st rL :=
  ⟨drawBars_repeat_of_false w h f opts st rB hsp,
   drawLine_repeat_of_false w h f opts st rL hsp⟩

/-- Witness for C1 on a concrete frame and state with peaks disabled. -/
theorem C1_witness :
    drawBars 2 10 [0, 10] ⟨false, false⟩
        (drawBars 2 10 [0, 10] ⟨false, false⟩ ⟨[10, 0], [0, 0]⟩ []).2
        (drawBars 2 10 [0, 10] ⟨false, false⟩ ⟨[10, 0], [0, 0]⟩ []).1
      = drawBars 2 10 [0, 10] ⟨false, false⟩ ⟨[10, 0], [0, 0]⟩ [] :=
  (C1_repeat_draw 2 10 [0, 10] ⟨false, false⟩ ⟨[10, 0], [0, 0]⟩ [] [] rfl).1

/-- C9 counterexample: even with `showPeaks` off, drawing a frame whose
bin count differs from the stored peak-array length re-initializes the
peak state to zeros (the reset at the top of `draw` is unconditional), so
the state is not "completely unchanged across any number of drawn
frames". -/
theorem C9_counterexample :
    (drawBars 2 10 [1, 2] ⟨false, false⟩ ⟨[5], [3]⟩ []).2 ≠ ⟨[5], [3]⟩ := by
  norm_num [drawBars, updatePeaks, peakStep, vueMaxValue, List.range_succ,
    List.replicate]

/-- C9 amended: when `showPeaks` is false, the Bars and Line renderers
leave the stored per-bin peak state (peak values and hold counters)
unchanged across any number of drawn frames, provided every drawn frame
is either empty (skipped by the guard) or has the same bin count as the
stored peak arrays; a frame with a different bin count still resets the
arrays to zero.  Under that proviso, toggling `showPeaks` off and later
back on resumes from the stale values held when peaks were disabled. -/
theorem C9_peaks_off_state (w h : ℚ) (opts : VisOptions) (frames : List (List ℚ))
    (st : PeakSt) (rB : List BarsOp) (rL : List LineOp)
    (hsp : opts.showPeaks = false)
    (hlen : ∀ f ∈ frames, f = [] ∨ f.length = st.peakValues.length) :
    (drawBarsSeq w h opts frames st rB).2 = st ∧
    (drawLineSeq w h opts frames st rL).2 = st :=
  ⟨drawBarsSeq_state w h opts hsp frames st rB hlen,
   drawLineSeq_state w h opts hsp frames st rL hlen⟩

/-- Witness for C9 on a concrete frame sequence (matching bin count 1,
one empty frame) with peaks disabled. -/
theorem C9_witness :
    (drawBarsSeq 2 10 ⟨true, false⟩ [[3], [], [4]] ⟨[7], [9]⟩ []).2 = ⟨[7], [9]⟩ ∧
    (drawLineSeq 2 10 ⟨true, false⟩ [[3], [], [4]] ⟨[7], [9]⟩ []).2 = ⟨[7], [9]⟩ :=
  C9_peaks_off_state 2 10 ⟨true, false⟩ [[3], [], [4]] ⟨[7], [9]⟩ [] [] rfl
    (by intro f hf
        simp only [List.mem_cons, List.not_mem_nil, or_false] at hf
        rcases hf with rfl | rfl | rfl
        · right; rfl
        · left; rfl
        · right; rfl)

/-- C10: the line renderer's guard only skips truly empty frames; a
one-bin frame passes it and reaches `width / (dataLength - 1)`, a
division by zero that yields `+Infinity` in JavaScript, and the first
point's x coordinate `0 * Infinity` is `NaN` — a non-finite coordinate in
the emitted main stroke. -/
theorem C10_single_bin_line (w h : ℚ) (opts : VisOptions) (st : PeakSt)
    (r : List LineOp) (a : ℚ) (hw : 0 < w) :
    (∀ g : List ℚ, g.length = 0 → drawLine w h g opts st r = (r, st)) ∧
    linePointSpacing w [a].length = JSVal.posInf ∧
    jsMul (JSVal.fin (0 : ℚ)) (linePointSpacing w [a].length) = JSVal.nan ∧
    (drawLine w h [a] opts st r).1[1]? =
      some (LineOp.stroke [(JSVal.nan, h - a / vueMaxValue [a] * h)] LinePaint.cyan) ∧
    JSVal.nan.isFinite = false := by
  have hsp : linePointSpacing w [a].length = JSVal.posInf := by
    simp only [linePointSpacing, List.length_cons, List.length_nil, jsDiv]
    norm_num [hw]
  have hmul : jsMul (JSVal.fin (0 : ℚ)) JSVal.posInf = JSVal.nan := by
    simp [jsMul]
  refine ⟨?_, hsp, by rw [hsp]; exact hmul, ?_, rfl⟩
  · intro g hg
    simp only [drawLine, if_pos hg]
  · simp only [drawLine, List.length_cons, List.length_nil]
    rw [if_neg (by norm_num)]
    rw [show (List.length [a] : ℕ) = 1 from rfl] at hsp
    simp [hsp, hmul, List.range_succ, List.getElem?_append]

/-- Witness for C10 at width 800 and the one-bin frame `[5]`. -/
theorem C10_witness :
    linePointSpacing 800 [(5 : ℚ)].length = JSVal.posInf ∧
    jsMul (JSVal.fin (0 : ℚ)) (linePointSpacing 800 [(5 : ℚ)].length) = JSVal.nan :=
  ⟨(C10_single_bin_line 800 500 ⟨true, true⟩ ⟨[], []⟩ [] 5 (by norm_num)).2.1,
   (C10_single_bin_line 800 500 ⟨true, true⟩ ⟨[], []⟩ [] 5 (by norm_num)).2.2.1⟩

/-- C8: in the Paused state of the simulated path's pipeline, a fired
timer tick performs nothing — no acquisition, no magnitude processing, no
history push, no drawing — so the pipeline state (history buffer and
raster included) is exactly what it was when pausing; `togglePause` never
touches the interval handle (the timer keeps firing), toggling twice is
the identity, and an unpaused tick runs the full processing step. -/
theorem C8_paused_tick (sqrt log10 : ℚ → ℚ) (logScale : Bool) (mode : VisMode)
    (showPeaks : Bool) (w h : ℚ) (fftOutput : List ℚ) (s : P4State) :
    (s.isPaused = true →
      intervalTick sqrt log10 logScale mode showPeaks w h fftOutput s = s) ∧
    (togglePause s).timerActive = s.timerActive ∧
    (togglePause s).fftHistory = s.fftHistory ∧
    (togglePause s).raster = s.raster ∧
    (togglePause s).isPaused = !s.isPaused ∧
    togglePause (togglePause s) = s ∧
    (s.isPaused = false →
      intervalTick sqrt log10 logScale mode showPeaks w h fftOutput s =
        p4ProcessFFTData sqrt log10 logScale mode showPeaks w h fftOutput s) := by
  refine ⟨?_, rfl, rfl, rfl, rfl, ?_, ?_⟩
  · intro hp
    simp [intervalTick, hp]
  · cases s
    simp [togglePause]
  · intro hp
    simp [intervalTick, hp]

/-- Witness for C8 on a concrete paused pipeline state. -/
theorem C8_witness :
    intervalTick (fun _ => 0) (fun _ => 0) true VisMode.bars true 800 500 []
        ⟨true, true, [[2]], [P4Op.clear]⟩ = ⟨true, true, [[2]], [P4Op.clear]⟩ :=
  (C8_paused_tick (fun _ => 0) (fun _ => 0) true VisMode.bars true 800 500 []
    ⟨true, true, [[2]], [P4Op.clear]⟩).1 rfl
